import Mathlib

/-!
Verification of the Job_Scrapper crawl-extract-classify-dedup core
(`scrapper.py`), embedded shallowly: Python strings become `String`
manipulated through character lists, the BeautifulSoup selection results
become explicit document views, the seen-jobs dict becomes an association
list, and fallible I/O becomes `Option`/`Except` values.
-/

/-- Model of Python's `str.lower()` (sufficient for the ASCII titles the
classifier compares). -/
def pyLower (s : String) : String := ⟨s.data.map Char.toLower⟩

/-- Whitespace characters removed by Python's `str.strip()`. -/
def pySpace (c : Char) : Bool :=
  c == ' ' || c == '\t' || c == '\n' || c == '\r' || c == '\x0b' || c == '\x0c'

/-- Model of Python's `str.strip()`: drop leading and trailing whitespace. -/
def pyStrip (s : String) : String :=
  ⟨((s.data.dropWhile pySpace).reverse.dropWhile pySpace).reverse⟩

/-- Model of Python's slice `s[:n]`: the first `n` characters. -/
def pyTake (s : String) (n : Nat) : String := ⟨s.data.take n⟩

/-- Model of Python's `s.startswith(p)`. -/
def pyStartsWith (s p : String) : Bool := p.data.isPrefixOf s.data

/-- Does `needle` occur as a contiguous sublist of `haystack`?  (Executable
model of Python's substring test `needle in haystack`, on char lists.) -/
def hasSub (needle : List Char) : List Char → Bool
  | [] => needle.isEmpty
  | c :: rest => needle.isPrefixOf (c :: rest) || hasSub needle rest

/-- Model of Python's substring operator `needle in haystack` on strings. -/
def pyIn (needle haystack : String) : Bool := hasSub needle.data haystack.data

theorem isPrefixOf_eq_true_iff :
    ∀ (n h : List Char), n.isPrefixOf h = true ↔ ∃ t, n ++ t = h := by
  intro n
  induction n with
  | nil => intro h; simp [List.isPrefixOf]
  | cons a n ih =>
    intro h
    cases h with
    | nil => simp [List.isPrefixOf]
    | cons b h =>
      simp only [List.isPrefixOf, Bool.and_eq_true, beq_iff_eq, ih h]
      constructor
      · rintro ⟨rfl, t, rfl⟩; exact ⟨t, rfl⟩
      · rintro ⟨t, ht⟩
        rw [List.cons_append] at ht
        injection ht with h1 h2
        exact ⟨h1, t, h2⟩

theorem hasSub_iff (n : List Char) :
    ∀ h : List Char, hasSub n h = true ↔ ∃ u v, u ++ n ++ v = h := by
  intro h
  induction h with
  | nil =>
    simp only [hasSub, List.isEmpty_iff]
    constructor
    · rintro rfl; exact ⟨[], [], rfl⟩
    · rintro ⟨u, v, huv⟩
      rcases List.append_eq_nil.mp huv with ⟨h1, -⟩
      exact (List.append_eq_nil.mp h1).2
  | cons c rest ih =>
    simp only [hasSub, Bool.or_eq_true, isPrefixOf_eq_true_iff, ih]
    constructor
    · rintro (⟨t, ht⟩ | ⟨u, v, huv⟩)
      · exact ⟨[], t, by simpa using ht⟩
      · exact ⟨c :: u, v, by simp [huv]⟩
    · rintro ⟨u, v, huv⟩
      cases u with
      | nil => exact Or.inl ⟨v, by simpa using huv⟩
      | cons c' u' =>
        simp only [List.cons_append, List.cons.injEq] at huv
        exact Or.inr ⟨u', v, huv.2⟩

theorem pyIn_iff (needle haystack : String) :
    pyIn needle haystack = true ↔ ∃ u v, u ++ needle.data ++ v = haystack.data :=
  hasSub_iff needle.data haystack.data

/-- The topic keyword list of `JobScraper.is_backend_internship`. -/
def keywords : List String :=
  ["backend", "back-end", "java", "python", "go", "golang",
   "node", "nodejs", "spring", "django", "flask", "api",
   "microservice", "database", "sql", "nosql", "aws",
   "azure", "gcp", "cloud", "distributed", "server",
   "software engineer", "developer"]

/-- The internship-signal term list of `JobScraper.is_backend_internship`. -/
def internship_terms : List String :=
  ["intern", "internship", "university graduate", "new grad", "student"]

/-- `JobScraper.is_backend_internship`: the relevance classifier.  True iff
the lowercased title contains some internship term and some topic keyword. -/
def is_backend_internship (job_title : String) : Bool :=
  let text := pyLower job_title
  let has_internship := internship_terms.any (fun term => pyIn term text)
  let has_backend := keywords.any (fun term => pyIn term text)
  has_internship && has_backend

/-- Model of `urllib.parse.urljoin` for the href shapes the scraper feeds
it: absolute URLs (containing a scheme separator) are returned unchanged,
host-relative hrefs are joined to the base's scheme and authority, and
path-relative hrefs are merged with the base's path directory. -/
def findSub (needle : List Char) : List Char → Option Nat
  | [] => if needle.isEmpty then some 0 else none
  | c :: rest =>
    if needle.isPrefixOf (c :: rest) then some 0
    else (findSub needle rest).map (· + 1)

/-- Model of `urllib.parse.urljoin base url` (see `findSub`). -/
def urljoin (base url : String) : String :=
  if hasSub "://".data url.data then url
  else
    match findSub "://".data base.data with
    | none => url
    | some i =>
      let afterScheme := base.data.drop (i + 3)
      let auth := afterScheme.takeWhile (fun c => c != '/')
      let root := base.data.take (i + 3 + auth.length)
      let path := afterScheme.drop auth.length
      if url.data.isEmpty then base
      else if url.data.head? == some '/' then ⟨root ++ url.data⟩
      else
        let dir := (path.reverse.dropWhile (fun c => c != '/')).reverse
        let dir2 := if dir.isEmpty then ['/'] else dir
        ⟨root ++ dir2 ++ url.data⟩

/-- UTF-8 encoding of one code point, as byte values. -/
def utf8Bytes (n : Nat) : List Nat :=
  if n < 128 then [n]
  else if n < 2048 then [192 + n / 64, 128 + n % 64]
  else if n < 65536 then [224 + n / 4096, 128 + n / 64 % 64, 128 + n % 64]
  else [240 + n / 262144, 128 + n / 4096 % 64, 128 + n / 64 % 64, 128 + n % 64]

/-- Model of Python's `str.encode()`: UTF-8 bytes of a string. -/
def utf8Encode (s : String) : List Nat :=
  (s.data.map (fun c => utf8Bytes c.toNat)).flatten

/-- Truncation to a 32-bit word. -/
def m32 (n : Nat) : Nat := n % 4294967296

/-- 32-bit left rotation. -/
def rotl32 (x s : Nat) : Nat := m32 ((x <<< s) ||| (x >>> (32 - s)))

/-- The 64 sine-derived constants of MD5 (RFC 1321 table T). -/
def md5K : List Nat :=
  [0xd76aa478, 0xe8c7b756, 0x242070db, 0xc1bdceee,
   0xf57c0faf, 0x4787c62a, 0xa8304613, 0xfd469501,
   0x698098d8, 0x8b44f7af, 0xffff5bb1, 0x895cd7be,
   0x6b901122, 0xfd987193, 0xa679438e, 0x49b40821,
   0xf61e2562, 0xc040b340, 0x265e5a51, 0xe9b6c7aa,
   0xd62f105d, 0x02441453, 0xd8a1e681, 0xe7d3fbc8,
   0x21e1cde6, 0xc33707d6, 0xf4d50d87, 0x455a14ed,
   0xa9e3e905, 0xfcefa3f8, 0x676f02d9, 0x8d2a4c8a,
   0xfffa3942, 0x8771f681, 0x6d9d6122, 0xfde5380c,
   0xa4beea44, 0x4bdecfa9, 0xf6bb4b60, 0xbebfbc70,
   0x289b7ec6, 0xeaa127fa, 0xd4ef3085, 0x04881d05,
   0xd9d4d039, 0xe6db99e5, 0x1fa27cf8, 0xc4ac5665,
   0xf4292244, 0x432aff97, 0xab9423a7, 0xfc93a039,
   0x655b59c3, 0x8f0ccc92, 0xffeff47d, 0x85845dd1,
   0x6fa87e4f, 0xfe2ce6e0, 0xa3014314, 0x4e0811a1,
   0xf7537e82, 0xbd3af235, 0x2ad7d2bb, 0xeb86d391]

/-- The per-round left-rotation amounts of MD5. -/
def md5S : List Nat :=
  [7, 12, 17, 22, 7, 12, 17, 22, 7, 12, 17, 22, 7, 12, 17, 22,
   5, 9, 14, 20, 5, 9, 14, 20, 5, 9, 14, 20, 5, 9, 14, 20,
   4, 11, 16, 23, 4, 11, 16, 23, 4, 11, 16, 23, 4, 11, 16, 23,
   6, 10, 15, 21, 6, 10, 15, 21, 6, 10, 15, 21, 6, 10, 15, 21]

/-- MD5 round functions F, G, H, I selected by round index. -/
def md5F (i b c d : Nat) : Nat :=
  if i < 16 then (b &&& c) ||| ((4294967295 ^^^ b) &&& d)
  else if i < 32 then (d &&& b) ||| ((4294967295 ^^^ d) &&& c)
  else if i < 48 then b ^^^ c ^^^ d
  else c ^^^ (b ||| (4294967295 ^^^ d))

/-- MD5 message-word index for round `i`. -/
def md5G (i : Nat) : Nat :=
  if i < 16 then i
  else if i < 32 then (5 * i + 1) % 16
  else if i < 48 then (3 * i + 5) % 16
  else (7 * i) % 16

/-- Group a byte list into little-endian 32-bit words. -/
def leWords : List Nat → List Nat
  | b0 :: b1 :: b2 :: b3 :: rest =>
    (b0 + 256 * b1 + 65536 * b2 + 16777216 * b3) :: leWords rest
  | _ => []

/-- One MD5 round on the state `(a, b, c, d)`. -/
def md5Round (msg : List Nat) (st : Nat × Nat × Nat × Nat) (i : Nat) :
    Nat × Nat × Nat × Nat :=
  let f := m32 (md5F i st.2.1 st.2.2.1 st.2.2.2 + st.1 +
                md5K.getD i 0 + msg.getD (md5G i) 0)
  (st.2.2.2, m32 (st.2.1 + rotl32 f (md5S.getD i 0)), st.2.1, st.2.2.1)

/-- Process one 64-byte block of MD5. -/
def md5Block (st : Nat × Nat × Nat × Nat) (block : List Nat) :
    Nat × Nat × Nat × Nat :=
  let msg := leWords block
  let r := (List.range 64).foldl (md5Round msg) st
  (m32 (st.1 + r.1), m32 (st.2.1 + r.2.1),
   m32 (st.2.2.1 + r.2.2.1), m32 (st.2.2.2 + r.2.2.2))

/-- The 8 little-endian bytes of the 64-bit message bit length. -/
def leBytes8 (n : Nat) : List Nat :=
  [n % 256, n / 256 % 256, n / 65536 % 256, n / 16777216 % 256,
   n / 4294967296 % 256, n / 1099511627776 % 256,
   n / 281474976710656 % 256, n / 72057594037927936 % 256]

/-- MD5 padding: a 1-bit, zeros to 56 mod 64, then the bit length. -/
def md5Pad (msg : List Nat) : List Nat :=
  let len := msg.length
  let zeros := (56 + 64 - (len + 1) % 64) % 64
  msg ++ [128] ++ List.replicate zeros 0 ++ leBytes8 (len * 8)

/-- Split a byte list into 64-byte blocks (fuel-based for kernel reduction). -/
def chunksAux : Nat → List Nat → List (List Nat)
  | 0, _ => []
  | _ + 1, [] => []
  | fuel + 1, l => l.take 64 :: chunksAux fuel (l.drop 64)

/-- Split a padded MD5 message into its 64-byte blocks. -/
def md5Chunks (l : List Nat) : List (List Nat) := chunksAux l.length l

/-- Lower-case hexadecimal digit. -/
def hexDigit (n : Nat) : Char :=
  if n < 10 then Char.ofNat (48 + n) else Char.ofNat (87 + n)

/-- Two hex characters of a byte. -/
def byteHex (b : Nat) : List Char := [hexDigit (b / 16), hexDigit (b % 16)]

/-- The 4 little-endian bytes of a 32-bit word. -/
def word32Bytes (w : Nat) : List Nat :=
  [w % 256, w / 256 % 256, w / 65536 % 256, w / 16777216 % 256]

/-- Model of `hashlib.md5(s.encode()).hexdigest()`: the MD5 digest of a
string, in lower-case hex. -/
def md5_hexdigest (s : String) : String :=
  let blocks := md5Chunks (md5Pad (utf8Encode s))
  let st := blocks.foldl md5Block (0x67452301, 0xefcdab89, 0x98badcfe, 0x10325476)
  ⟨((word32Bytes st.1 ++ word32Bytes st.2.1 ++
     word32Bytes st.2.2.1 ++ word32Bytes st.2.2.2).map byteHex).flatten⟩

/-- A job posting as built by the scraper's adapters: the dict
`{'company', 'title', 'url', 'location', 'date_found'}`. -/
structure Job where
  company : String
  title : String
  url : String
  location : String
  date_found : String
deriving DecidableEq

/-- `JobScraper.get_job_id`'s identity string `f"{company}-{title}-{url}"`. -/
def job_string (job : Job) : String :=
  job.company ++ "-" ++ job.title ++ "-" ++ job.url

/-- `JobScraper.get_job_id`: the MD5 fingerprint of the identity string. -/
def get_job_id (job : Job) : String := md5_hexdigest (job_string job)

/-- An `<a href=...>` element as the adapters see it: its `href` attribute
and its visible text (`get_text()`). -/
structure Anchor where
  href : String
  text : String
deriving DecidableEq

/-- A Google container element (`div`/`li` with a job/card class): the
optional title element's text and the optional link element's href. -/
structure JobElem where
  title_elem : Option String
  link_elem : Option String
deriving DecidableEq

/-- A Microsoft card element (`div`/`article` with a job/card class): the
first `<a href=...>` inside it, if any. -/
structure JobCard where
  link : Option Anchor
deriving DecidableEq

/-- The parsed-document views the three adapters select with BeautifulSoup:
Google's container elements, Microsoft's cards, and all plain anchors. -/
structure Document where
  job_elements : List JobElem
  job_cards : List JobCard
  all_links : List Anchor
deriving DecidableEq

/-- A source configuration entry of `JobScraper.__init__`'s `companies`. -/
structure Company where
  name : String
  base_url : String
  search_url : String
  type : String
deriving DecidableEq

/-- The configured sources of `JobScraper.__init__`. -/
def companies : List Company :=
  [⟨"Google", "https://careers.google.com",
    "https://careers.google.com/jobs/results/?degree=BACHELORS&employment_type=INTERN&category=SOFTWARE_ENGINEERING&company=Google&hl=en_US&jlo=en_US&location=United%20States&page=1&sort_by=date",
    "google"⟩,
   ⟨"Microsoft", "https://careers.microsoft.com",
    "https://careers.microsoft.com/v2/global/en/jobs?pg=1&pgSz=20&o=Relevance&l=en_us&s=Students%20and%20graduates&t=US%20Citizenship%20Requirement%3DNot%20Required%20-%20US%20Citizenship%3DNot%20Required&t=Employment%20Type%3DInternship&f=Internships",
    "microsoft"⟩,
   ⟨"Amazon", "https://amazon.jobs",
    "https://amazon.jobs/en/search?base_query=software+engineer+intern&offset=0&category=software-development&loc_query=United%20States&job_type=Internship&sort=recent",
    "amazon"⟩]

/-- The seen-jobs mapping fingerprint → posting snapshot (`self.seen_jobs`),
as an insertion-ordered association list. -/
abbrev SeenJobs := List (String × Job)

/-- The lexicon of `JobScraper.scrape_generic`'s pre-filter. -/
def generic_terms : List String := ["intern", "software", "developer", "engineer"]

/-- The fallback flat-link scan of `JobScraper.scrape_google` (the branch
taken when no container elements are found): walk the first 30 anchors,
keep non-empty texts mentioning intern/software, truncate the title to 100
characters, classify, and stop after 10 accepted jobs. -/
def google_fallback (now : String) (company : Company) :
    List Anchor → List Job → List Job
  | [], jobs => jobs
  | link :: rest, jobs =>
    let text := pyStrip link.text
    if text.data ≠ [] ∧
        (pyIn "intern" (pyLower text) || pyIn "software" (pyLower text)) = true then
      let full_url :=
        if pyStartsWith link.href "http" = true then link.href
        else urljoin company.base_url link.href
      let job : Job := ⟨company.name, pyTake text 100, full_url, "US", now⟩
      if is_backend_internship text = true then
        let jobs2 := jobs ++ [job]
        if 10 ≤ jobs2.length then jobs2
        else google_fallback now company rest jobs2
      else google_fallback now company rest jobs
    else google_fallback now company rest jobs

/-- `JobScraper.scrape_google`: structured extraction over container
elements, with the flat-link fallback when none are found.  The `Except`
argument is the outcome of the fetch+parse prelude; the `try` block turns
its failure into an empty job list. -/
def scrape_google (now : String) (company : Company)
    (fetched : Except Unit Document) : List Job :=
  match fetched with
  | .error _ => []
  | .ok soup =>
    if soup.job_elements.isEmpty = true then
      google_fallback now company (soup.all_links.take 30) []
    else
      (soup.job_elements.take 15).filterMap (fun elem =>
        match elem.title_elem, elem.link_elem with
        | some t, some href =>
          let title := pyStrip t
          let url := urljoin company.base_url href
          if is_backend_internship title = true then
            some ⟨company.name, title, url, "US", now⟩
          else none
        | _, _ => none)

/-- `JobScraper.scrape_microsoft`: card extraction capped at the first 15
cards; a card contributes iff it holds a link and passes the classifier. -/
def scrape_microsoft (now : String) (company : Company)
    (fetched : Except Unit Document) : List Job :=
  match fetched with
  | .error _ => []
  | .ok soup =>
    (soup.job_cards.take 15).filterMap (fun card =>
      match card.link with
      | some link =>
        let title := pyStrip link.text
        let url := urljoin company.base_url link.href
        if is_backend_internship title = true then
          some ⟨company.name, title, url, "US", now⟩
        else none
      | none => none)

/-- `JobScraper.scrape_generic`: scan the first 30 anchors, keep texts of
length in (10, 150) containing a lexicon term, resolve relative links, and
classify. -/
def scrape_generic (now : String) (company : Company)
    (fetched : Except Unit Document) : List Job :=
  match fetched with
  | .error _ => []
  | .ok soup =>
    (soup.all_links.take 30).filterMap (fun link =>
      let text := pyStrip link.text
      let href := link.href
      if text.data ≠ [] ∧ 10 < text.data.length ∧ text.data.length < 150 then
        if (generic_terms.any (fun term => pyIn term (pyLower text))) = true then
          let full_url :=
            if pyStartsWith href "http" = true then href
            else urljoin company.base_url href
          if is_backend_internship text = true then
            some ⟨company.name, text, full_url, "US", now⟩
          else none
        else none
      else none)

/-- The per-company dispatch of `JobScraper.scrape_all` on the `type`
field.  `world` gives each company's fetch+parse outcome for this cycle. -/
def dispatch (now : String) (world : Company → Except Unit Document)
    (c : Company) : List Job :=
  if c.type == "google" then scrape_google now c (world c)
  else if c.type == "microsoft" then scrape_microsoft now c (world c)
  else scrape_generic now c (world c)

/-- The dedup loop of `JobScraper.scrape_all`: for each extracted job, if
its fingerprint is absent from the seen set, record it and report it. -/
def dedup_insert : SeenJobs → List Job → List Job → SeenJobs × List Job
  | seen, novel, [] => (seen, novel)
  | seen, novel, job :: rest =>
    let job_id := get_job_id job
    if List.lookup job_id seen = none then
      dedup_insert (seen ++ [(job_id, job)]) (novel ++ [job]) rest
    else
      dedup_insert seen novel rest

/-- The company loop of `JobScraper.scrape_all`. -/
def run_companies (now : String) (world : Company → Except Unit Document) :
    List Company → SeenJobs × List Job → SeenJobs × List Job
  | [], st => st
  | c :: rest, st =>
    run_companies now world rest (dedup_insert st.1 st.2 (dispatch now world c))

/-- `JobScraper.scrape_all`: one full cycle over the configured sources,
returning the updated (and persisted) seen set plus the novel postings. -/
def scrape_all (now : String) (world : Company → Except Unit Document)
    (srcs : List Company) (seen : SeenJobs) : SeenJobs × List Job :=
  run_companies now world srcs (seen, [])

/-- `JobScraper.load_seen_jobs`: load the persisted seen set.  The file
contents are `none` when the file is missing (`FileNotFoundError`); the
`json_load` argument models `json.load`, failing on malformed contents
(`json.JSONDecodeError`).  Either failure degrades to the empty mapping. -/
def load_seen_jobs (file_contents : Option String)
    (json_load : String → Except String SeenJobs) : SeenJobs :=
  match file_contents with
  | none => []
  | some s =>
    match json_load s with
    | .error _ => []
    | .ok m => m

theorem lookup_append_some {l1 l2 : SeenJobs} {k : String} {v : Job}
    (h : List.lookup k l1 = some v) : List.lookup k (l1 ++ l2) = some v := by
  simp [List.lookup_append, h, Option.or]

theorem lookup_append_isSome {l1 l2 : SeenJobs} {k : String}
    (h : (List.lookup k l1).isSome = true) :
    (List.lookup k (l1 ++ l2)).isSome = true := by
  rcases Option.isSome_iff_exists.mp h with ⟨v, hv⟩
  exact Option.isSome_iff_exists.mpr ⟨v, lookup_append_some hv⟩

theorem lookup_append_new {seen : SeenJobs} {k : String} (v : Job)
    (h : List.lookup k seen = none) :
    List.lookup k (seen ++ [(k, v)]) = some v := by
  simp [List.lookup_append, h, Option.or, List.lookup]

theorem dedup_lookup_mono :
    ∀ (jobs : List Job) (seen : SeenJobs) (novel : List Job) (k : String) (v : Job),
      List.lookup k seen = some v →
      List.lookup k (dedup_insert seen novel jobs).1 = some v := by
  intro jobs
  induction jobs with
  | nil => intro seen novel k v h; exact h
  | cons job rest ih =>
    intro seen novel k v h
    by_cases hl : List.lookup (get_job_id job) seen = none
    · simpa [dedup_insert, hl] using ih _ _ k v (lookup_append_some h)
    · simpa [dedup_insert, hl] using ih _ _ k v h

theorem dedup_lookup_mono_isSome :
    ∀ (jobs : List Job) (seen : SeenJobs) (novel : List Job) (k : String),
      (List.lookup k seen).isSome = true →
      ((dedup_insert seen novel jobs).1.lookup k).isSome = true := by
  intro jobs seen novel k h
  rcases Option.isSome_iff_exists.mp h with ⟨v, hv⟩
  exact Option.isSome_iff_exists.mpr ⟨v, dedup_lookup_mono jobs seen novel k v hv⟩

theorem dedup_novel_extend :
    ∀ (jobs : List Job) (seen : SeenJobs) (novel : List Job),
      ∃ d, (dedup_insert seen novel jobs).2 = novel ++ d ∧
        (d = [] → (dedup_insert seen novel jobs).1 = seen) := by
  intro jobs
  induction jobs with
  | nil => intro seen novel; exact ⟨[], by simp [dedup_insert]⟩
  | cons job rest ih =>
    intro seen novel
    by_cases hl : List.lookup (get_job_id job) seen = none
    · rcases ih (seen ++ [(get_job_id job, job)]) (novel ++ [job]) with ⟨d, hd, -⟩
      refine ⟨job :: d, ?_, by simp⟩
      simpa [dedup_insert, hl] using hd
    · rcases ih seen novel with ⟨d, hd, hseen⟩
      exact ⟨d, by simpa [dedup_insert, hl] using hd,
             fun h0 => by simpa [dedup_insert, hl] using hseen h0⟩

theorem dedup_length :
    ∀ (jobs : List Job) (seen : SeenJobs) (novel : List Job),
      (dedup_insert seen novel jobs).1.length + novel.length =
        seen.length + (dedup_insert seen novel jobs).2.length := by
  intro jobs
  induction jobs with
  | nil => intro seen novel; simp [dedup_insert]
  | cons job rest ih =>
    intro seen novel
    by_cases hl : List.lookup (get_job_id job) seen = none
    · have := ih (seen ++ [(get_job_id job, job)]) (novel ++ [job])
      simp only [dedup_insert, hl, if_pos, List.length_append,
        List.length_singleton] at this ⊢
      omega
    · simpa [dedup_insert, hl] using ih seen novel

theorem dedup_covers :
    ∀ (jobs : List Job) (seen : SeenJobs) (novel : List Job) (j : Job),
      j ∈ jobs →
      ((dedup_insert seen novel jobs).1.lookup (get_job_id j)).isSome = true := by
  intro jobs
  induction jobs with
  | nil => intro seen novel j hj; cases hj
  | cons job rest ih =>
    intro seen novel j hj
    by_cases hl : List.lookup (get_job_id job) seen = none
    · rcases List.mem_cons.mp hj with heq | hj'
      · subst heq
        have hnew := lookup_append_new j hl
        simpa [dedup_insert, hl] using
          dedup_lookup_mono_isSome rest _ (novel ++ [j]) (get_job_id j)
            (Option.isSome_iff_exists.mpr ⟨j, hnew⟩)
      · simpa [dedup_insert, hl] using ih _ (novel ++ [job]) j hj'
    · rcases List.mem_cons.mp hj with heq | hj'
      · subst heq
        have hs : (List.lookup (get_job_id j) seen).isSome = true := by
          cases h : List.lookup (get_job_id j) seen with
          | none => exact absurd h hl
          | some v => rfl
        simpa [dedup_insert, hl] using
          dedup_lookup_mono_isSome rest seen novel (get_job_id j) hs
      · simpa [dedup_insert, hl] using ih seen novel j hj'

theorem dedup_noop :
    ∀ (jobs : List Job) (seen : SeenJobs) (novel : List Job),
      (∀ j ∈ jobs, (List.lookup (get_job_id j) seen).isSome = true) →
      dedup_insert seen novel jobs = (seen, novel) := by
  intro jobs
  induction jobs with
  | nil => intro seen novel _; rfl
  | cons job rest ih =>
    intro seen novel h
    have hj := h job (List.mem_cons_self job rest)
    have hl : ¬ List.lookup (get_job_id job) seen = none := by
      intro h0; rw [h0] at hj; cases hj
    simpa [dedup_insert, hl] using
      ih seen novel (fun j hjr => h j (List.mem_cons_of_mem job hjr))

theorem dedup_snapshots :
    ∀ (jobs : List Job) (seen : SeenJobs) (novel : List Job),
      (∀ j ∈ novel, List.lookup (get_job_id j) seen = some j) →
      ∀ j ∈ (dedup_insert seen novel jobs).2,
        List.lookup (get_job_id j) (dedup_insert seen novel jobs).1 = some j := by
  intro jobs
  induction jobs with
  | nil => intro seen novel h j hj; exact h j hj
  | cons job rest ih =>
    intro seen novel h j hj
    by_cases hl : List.lookup (get_job_id job) seen = none
    · have hinv : ∀ j' ∈ novel ++ [job],
          List.lookup (get_job_id j') (seen ++ [(get_job_id job, job)]) = some j' := by
        intro j' hj'
        rcases List.mem_append.mp hj' with hn | hs
        · exact lookup_append_some (h j' hn)
        · rcases List.mem_singleton.mp hs with rfl
          exact lookup_append_new j' hl
      have := ih (seen ++ [(get_job_id job, job)]) (novel ++ [job]) hinv j
      simp only [dedup_insert, hl, if_pos] at hj ⊢
      exact this hj
    · have := ih seen novel h j
      simp only [dedup_insert, hl, if_neg, ite_false] at hj ⊢
      exact this hj

theorem dedup_inv_isSome :
    ∀ (jobs : List Job) (seen : SeenJobs) (novel : List Job),
      (∀ j ∈ novel, (List.lookup (get_job_id j) seen).isSome = true) →
      ∀ j ∈ (dedup_insert seen novel jobs).2,
        ((dedup_insert seen novel jobs).1.lookup (get_job_id j)).isSome = true := by
  intro jobs
  induction jobs with
  | nil => intro seen novel h j hj; exact h j hj
  | cons job rest ih =>
    intro seen novel h j hj
    by_cases hl : List.lookup (get_job_id job) seen = none
    · have hinv : ∀ j' ∈ novel ++ [job],
          ((seen ++ [(get_job_id job, job)]).lookup (get_job_id j')).isSome = true := by
        intro j' hj'
        rcases List.mem_append.mp hj' with hn | hs
        · exact lookup_append_isSome (h j' hn)
        · rcases List.mem_singleton.mp hs with rfl
          exact Option.isSome_iff_exists.mpr ⟨j', lookup_append_new j' hl⟩
      have := ih (seen ++ [(get_job_id job, job)]) (novel ++ [job]) hinv j
      simp only [dedup_insert, hl, if_pos] at hj ⊢
      exact this hj
    · have := ih seen novel h j
      simp only [dedup_insert, hl, if_neg, ite_false] at hj ⊢
      exact this hj

theorem dedup_nodup :
    ∀ (jobs : List Job) (seen : SeenJobs) (novel : List Job),
      (∀ j ∈ novel, (List.lookup (get_job_id j) seen).isSome = true) →
      (novel.map get_job_id).Nodup →
      ((dedup_insert seen novel jobs).2.map get_job_id).Nodup := by
  intro jobs
  induction jobs with
  | nil => intro seen novel _ h2; exact h2
  | cons job rest ih =>
    intro seen novel h h2
    by_cases hl : List.lookup (get_job_id job) seen = none
    · have hnotin : get_job_id job ∉ novel.map get_job_id := by
        intro hmem
        rcases List.mem_map.mp hmem with ⟨j', hj', hid⟩
        have := h j' hj'
        rw [hid, hl] at this
        cases this
      have hinv : ∀ j' ∈ novel ++ [job],
          ((seen ++ [(get_job_id job, job)]).lookup (get_job_id j')).isSome = true := by
        intro j' hj'
        rcases List.mem_append.mp hj' with hn | hs
        · exact lookup_append_isSome (h j' hn)
        · rcases List.mem_singleton.mp hs with rfl
          exact Option.isSome_iff_exists.mpr ⟨j', lookup_append_new j' hl⟩
      have h2' : ((novel ++ [job]).map get_job_id).Nodup := by
        rw [List.map_append]
        exact List.nodup_append.mpr
          ⟨h2, List.nodup_singleton _, by simpa [List.disjoint_singleton] using hnotin⟩
      simpa [dedup_insert, hl] using ih _ (novel ++ [job]) hinv h2'
    · simpa [dedup_insert, hl] using ih seen novel h h2

theorem run_lookup_mono (now : String) (world : Company → Except Unit Document) :
    ∀ (cs : List Company) (st : SeenJobs × List Job) (k : String) (v : Job),
      List.lookup k st.1 = some v →
      List.lookup k (run_companies now world cs st).1 = some v := by
  intro cs
  induction cs with
  | nil => intro st k v h; exact h
  | cons c rest ih =>
    intro st k v h
    exact ih _ k v (dedup_lookup_mono _ st.1 st.2 k v h)

theorem run_lookup_mono_isSome (now : String) (world : Company → Except Unit Document) :
    ∀ (cs : List Company) (st : SeenJobs × List Job) (k : String),
      (List.lookup k st.1).isSome = true →
      ((run_companies now world cs st).1.lookup k).isSome = true := by
  intro cs st k h
  rcases Option.isSome_iff_exists.mp h with ⟨v, hv⟩
  exact Option.isSome_iff_exists.mpr ⟨v, run_lookup_mono now world cs st k v hv⟩

theorem run_covers (now : String) (world : Company → Except Unit Document) :
    ∀ (cs : List Company) (st : SeenJobs × List Job) (c : Company),
      c ∈ cs → ∀ j ∈ dispatch now world c,
      ((run_companies now world cs st).1.lookup (get_job_id j)).isSome = true := by
  intro cs
  induction cs with
  | nil => intro st c hc; cases hc
  | cons c0 rest ih =>
    intro st c hc j hj
    rcases List.mem_cons.mp hc with heq | hc'
    · subst heq
      exact run_lookup_mono_isSome now world rest _ (get_job_id j)
        (dedup_covers _ st.1 st.2 j hj)
    · exact ih _ c hc' j hj

theorem run_noop (now : String) (world : Company → Except Unit Document) :
    ∀ (cs : List Company) (st : SeenJobs × List Job),
      (∀ c ∈ cs, ∀ j ∈ dispatch now world c,
        (List.lookup (get_job_id j) st.1).isSome = true) →
      run_companies now world cs st = st := by
  intro cs
  induction cs with
  | nil => intro st _; rfl
  | cons c0 rest ih =>
    intro st h
    have hbatch := dedup_noop (dispatch now world c0) st.1 st.2
      (h c0 (List.mem_cons_self c0 rest))
    show run_companies now world rest (dedup_insert st.1 st.2 (dispatch now world c0)) = st
    rw [hbatch]
    exact ih st (fun c hc => h c (List.mem_cons_of_mem c0 hc))

theorem run_novel_extend (now : String) (world : Company → Except Unit Document) :
    ∀ (cs : List Company) (st : SeenJobs × List Job),
      ∃ d, (run_companies now world cs st).2 = st.2 ++ d ∧
        (d = [] → (run_companies now world cs st).1 = st.1) := by
  intro cs
  induction cs with
  | nil => intro st; exact ⟨[], (List.append_nil st.2).symm, fun _ => rfl⟩
  | cons c0 rest ih =>
    intro st
    rcases dedup_novel_extend (dispatch now world c0) st.1 st.2 with ⟨d1, hd1, hs1⟩
    rcases ih (dedup_insert st.1 st.2 (dispatch now world c0)) with ⟨d2, hd2, hs2⟩
    refine ⟨d1 ++ d2, ?_, ?_⟩
    · show (run_companies now world rest (dedup_insert st.1 st.2 (dispatch now world c0))).2 =
        st.2 ++ (d1 ++ d2)
      rw [hd2, hd1, List.append_assoc]
    · intro h0
      rcases List.append_eq_nil.mp h0 with ⟨h1, h2⟩
      show (run_companies now world rest (dedup_insert st.1 st.2 (dispatch now world c0))).1 = st.1
      rw [hs2 h2, hs1 h1]

theorem run_length (now : String) (world : Company → Except Unit Document) :
    ∀ (cs : List Company) (st : SeenJobs × List Job),
      (run_companies now world cs st).1.length + st.2.length =
        st.1.length + (run_companies now world cs st).2.length := by
  intro cs
  induction cs with
  | nil => intro st; show st.1.length + st.2.length = st.1.length + st.2.length; omega
  | cons c0 rest ih =>
    intro st
    have h1 := dedup_length (dispatch now world c0) st.1 st.2
    have h2 := ih (dedup_insert st.1 st.2 (dispatch now world c0))
    show (run_companies now world rest (dedup_insert st.1 st.2 (dispatch now world c0))).1.length +
        st.2.length = st.1.length +
        (run_companies now world rest (dedup_insert st.1 st.2 (dispatch now world c0))).2.length
    omega

theorem run_snapshots (now : String) (world : Company → Except Unit Document) :
    ∀ (cs : List Company) (st : SeenJobs × List Job),
      (∀ j ∈ st.2, List.lookup (get_job_id j) st.1 = some j) →
      ∀ j ∈ (run_companies now world cs st).2,
        List.lookup (get_job_id j) (run_companies now world cs st).1 = some j := by
  intro cs
  induction cs with
  | nil => intro st h j hj; exact h j hj
  | cons c0 rest ih =>
    intro st h
    exact ih _ (dedup_snapshots (dispatch now world c0) st.1 st.2 h)

theorem run_inv_isSome (now : String) (world : Company → Except Unit Document) :
    ∀ (cs : List Company) (st : SeenJobs × List Job),
      (∀ j ∈ st.2, (List.lookup (get_job_id j) st.1).isSome = true) →
      ∀ j ∈ (run_companies now world cs st).2,
        ((run_companies now world cs st).1.lookup (get_job_id j)).isSome = true := by
  intro cs
  induction cs with
  | nil => intro st h j hj; exact h j hj
  | cons c0 rest ih =>
    intro st h
    exact ih _ (dedup_inv_isSome (dispatch now world c0) st.1 st.2 h)

theorem run_nodup (now : String) (world : Company → Except Unit Document) :
    ∀ (cs : List Company) (st : SeenJobs × List Job),
      (∀ j ∈ st.2, (List.lookup (get_job_id j) st.1).isSome = true) →
      (st.2.map get_job_id).Nodup →
      ((run_companies now world cs st).2.map get_job_id).Nodup := by
  intro cs
  induction cs with
  | nil => intro st _ h2; exact h2
  | cons c0 rest ih =>
    intro st h h2
    exact ih _ (dedup_inv_isSome (dispatch now world c0) st.1 st.2 h)
      (dedup_nodup (dispatch now world c0) st.1 st.2 h h2)

theorem google_fallback_mem (now : String) (c : Company) :
    ∀ (links : List Anchor) (jobs : List Job) (j : Job),
      j ∈ google_fallback now c links jobs →
      j ∈ jobs ∨ ∃ t, j.title = pyTake t 100 ∧ is_backend_internship t = true := by
  intro links
  induction links with
  | nil => intro jobs j hj; exact Or.inl hj
  | cons link rest ih =>
    intro jobs j hj
    rw [google_fallback] at hj
    by_cases h1 : (pyStrip link.text).data ≠ [] ∧
        (pyIn "intern" (pyLower (pyStrip link.text)) ||
         pyIn "software" (pyLower (pyStrip link.text))) = true
    · rw [if_pos h1] at hj
      by_cases h2 : is_backend_internship (pyStrip link.text) = true
      · rw [if_pos h2] at hj
        by_cases h3 : 10 ≤ (jobs ++
            [(⟨c.name, pyTake (pyStrip link.text) 100,
               if pyStartsWith link.href "http" = true then link.href
               else urljoin c.base_url link.href, "US", now⟩ : Job)]).length
        · rw [if_pos h3] at hj
          rcases List.mem_append.mp hj with hin | hnew
          · exact Or.inl hin
          · rcases List.mem_singleton.mp hnew with rfl
            exact Or.inr ⟨pyStrip link.text, rfl, h2⟩
        · rw [if_neg h3] at hj
          rcases ih _ j hj with hin | hex
          · rcases List.mem_append.mp hin with hin' | hnew
            · exact Or.inl hin'
            · rcases List.mem_singleton.mp hnew with rfl
              exact Or.inr ⟨pyStrip link.text, rfl, h2⟩
          · exact Or.inr hex
      · rw [if_neg h2] at hj
        exact ih jobs j hj
    · rw [if_neg h1] at hj
      exact ih jobs j hj

theorem google_fallback_length (now : String) (c : Company) :
    ∀ (links : List Anchor) (jobs : List Job), jobs.length < 10 →
      (google_fallback now c links jobs).length ≤ 10 := by
  intro links
  induction links with
  | nil => intro jobs h; exact Nat.le_of_lt (Nat.lt_of_lt_of_le h (by omega))
  | cons link rest ih =>
    intro jobs h
    rw [google_fallback]
    by_cases h1 : (pyStrip link.text).data ≠ [] ∧
        (pyIn "intern" (pyLower (pyStrip link.text)) ||
         pyIn "software" (pyLower (pyStrip link.text))) = true
    · rw [if_pos h1]
      by_cases h2 : is_backend_internship (pyStrip link.text) = true
      · rw [if_pos h2]
        by_cases h3 : 10 ≤ (jobs ++
            [(⟨c.name, pyTake (pyStrip link.text) 100,
               if pyStartsWith link.href "http" = true then link.href
               else urljoin c.base_url link.href, "US", now⟩ : Job)]).length
        · rw [if_pos h3]
          rw [List.length_append, List.length_singleton]
          omega
        · rw [if_neg h3]
          apply ih
          rw [List.length_append, List.length_singleton] at h3 ⊢
          omega
      · rw [if_neg h2]; exact ih jobs h
    · rw [if_neg h1]; exact ih jobs h

/-- A generic-typed test source. -/
def cW : Company := ⟨"Acme", "https://acme.com", "https://acme.com/jobs", "amazon"⟩

/-- A test anchor whose text passes both the pre-filter and the classifier. -/
def anchorW : Anchor := ⟨"/jobs/1", "Backend Intern - Python"⟩

/-- A test document holding only `anchorW`. -/
def docW : Document := ⟨[], [], [anchorW]⟩

/-- A test world in which every fetch yields `docW`. -/
def worldW : Company → Except Unit Document := fun _ => Except.ok docW

/-- The posting the generic adapter extracts from `docW` for `cW`. -/
def jobW : Job := ⟨"Acme", "Backend Intern - Python", "https://acme.com/jobs/1", "US", "t0"⟩

/-- C2: `is_backend_internship title` is true iff some internship-signal
term and some topic keyword are each a substring of the lowercased title,
and the spec's truth table holds on its four sample titles. -/
theorem classifier_characterization :
    (∀ title : String,
      is_backend_internship title = true ↔
        ((∃ t ∈ internship_terms, ∃ u v, u ++ t.data ++ v = (pyLower title).data) ∧
         (∃ t ∈ keywords, ∃ u v, u ++ t.data ++ v = (pyLower title).data))) ∧
    is_backend_internship "Backend Engineering Intern" = true ∧
    is_backend_internship "New Grad Cloud Developer" = true ∧
    is_backend_internship "Frontend Intern" = false ∧
    is_backend_internship "Backend Software Engineer" = false := by
  refine ⟨fun title => ?_, by decide, by decide, by decide, by decide⟩
  simp only [is_backend_internship, Bool.and_eq_true, List.any_eq_true, pyIn_iff]

/-- C2 (witness): the characterization applied at a concrete title. -/
theorem classifier_characterization_witness :
    is_backend_internship "Backend Engineering Intern" = true ∧
    ((∃ t ∈ internship_terms,
        ∃ u v, u ++ t.data ++ v = (pyLower "Backend Engineering Intern").data) ∧
     (∃ t ∈ keywords,
        ∃ u v, u ++ t.data ++ v = (pyLower "Backend Engineering Intern").data)) :=
  ⟨classifier_characterization.2.1,
   (classifier_characterization.1 "Backend Engineering Intern").mp
     classifier_characterization.2.1⟩

/-- C1 (counterexample): the adapters are not classifier-independent.  The
anchor text "Senior Software Engineer Lead" passes every extraction
criterion of the generic adapter (non-empty, length in bounds, lexicon
term present) yet the adapter returns no candidate for it, because it
applies `is_backend_internship` itself; flipping only the classifier
verdict (anchor "Backend Software Engineer Intern") makes the returned
sequence non-empty. -/
theorem adapters_not_classifier_independent :
    (pyStrip "Senior Software Engineer Lead").data ≠ [] ∧
    10 < (pyStrip "Senior Software Engineer Lead").data.length ∧
    (pyStrip "Senior Software Engineer Lead").data.length < 150 ∧
    (generic_terms.any
      (fun term => pyIn term (pyLower (pyStrip "Senior Software Engineer Lead")))) = true ∧
    is_backend_internship "Senior Software Engineer Lead" = false ∧
    scrape_generic "t0" cW
      (Except.ok ⟨[], [], [⟨"/a", "Senior Software Engineer Lead"⟩]⟩) = [] ∧
    is_backend_internship "Backend Software Engineer Intern" = true ∧
    scrape_generic "t0" cW
      (Except.ok ⟨[], [], [⟨"/a", "Backend Software Engineer Intern"⟩]⟩) ≠ [] := by
  refine ⟨by decide, by decide, by decide, by decide, by decide, by decide,
    by decide, by decide⟩

/-- C1 (amended): each Source Adapter variant applies the relevance
predicate itself and returns only candidates whose extracted title text
satisfies `is_backend_internship`; the orchestrator performs no separate
classify step.  (In the Google fallback the predicate is checked on the
un-truncated text and the stored title is its 100-character truncation.) -/
theorem adapters_filter_by_classifier (now : String) (c : Company)
    (fetched : Except Unit Document) :
    (∀ j ∈ scrape_microsoft now c fetched, is_backend_internship j.title = true) ∧
    (∀ j ∈ scrape_generic now c fetched, is_backend_internship j.title = true) ∧
    (∀ j ∈ scrape_google now c fetched,
      ∃ t, (j.title = t ∨ j.title = pyTake t 100) ∧ is_backend_internship t = true) := by
  refine ⟨?_, ?_, ?_⟩
  · intro j hj
    match fetched with
    | .error _ => cases hj
    | .ok soup =>
      rcases List.mem_filterMap.mp hj with ⟨card, -, heq⟩
      match hcl : card.link with
      | none => rw [hcl] at heq; exact Option.noConfusion heq
      | some link =>
        rw [hcl] at heq
        have heq2 : (if is_backend_internship (pyStrip link.text) = true then
            some (⟨c.name, pyStrip link.text, urljoin c.base_url link.href,
                   "US", now⟩ : Job)
          else none) = some j := heq
        by_cases hb : is_backend_internship (pyStrip link.text) = true
        · rw [if_pos hb] at heq2
          injection heq2 with heq'
          rw [← heq']
          exact hb
        · rw [if_neg hb] at heq2; exact Option.noConfusion heq2
  · intro j hj
    match fetched with
    | .error _ => cases hj
    | .ok soup =>
      rcases List.mem_filterMap.mp hj with ⟨link, -, heq⟩
      simp only at heq
      by_cases h1 : (pyStrip link.text).data ≠ [] ∧
          10 < (pyStrip link.text).data.length ∧ (pyStrip link.text).data.length < 150
      · rw [if_pos h1] at heq
        by_cases h2 : (generic_terms.any
            (fun term => pyIn term (pyLower (pyStrip link.text)))) = true
        · rw [if_pos h2] at heq
          by_cases hb : is_backend_internship (pyStrip link.text) = true
          · rw [if_pos hb] at heq
            injection heq with heq'
            rw [← heq']
            exact hb
          · rw [if_neg hb] at heq; cases heq
        · rw [if_neg h2] at heq; cases heq
      · rw [if_neg h1] at heq; cases heq
  · intro j hj
    match fetched with
    | .error _ => cases hj
    | .ok soup =>
      rw [scrape_google] at hj
      by_cases hempty : soup.job_elements.isEmpty = true
      · rw [if_pos hempty] at hj
        rcases google_fallback_mem now c (soup.all_links.take 30) [] j hj with hin | hex
        · cases hin
        · rcases hex with ⟨t, ht, hb⟩
          exact ⟨t, Or.inr ht, hb⟩
      · rw [if_neg hempty] at hj
        rcases List.mem_filterMap.mp hj with ⟨elem, -, heq⟩
        match he1 : elem.title_elem, he2 : elem.link_elem with
        | some t, some href =>
          rw [he1, he2] at heq
          have heq2 : (if is_backend_internship (pyStrip t) = true then
              some (⟨c.name, pyStrip t, urljoin c.base_url href, "US", now⟩ : Job)
            else none) = some j := heq
          by_cases hb : is_backend_internship (pyStrip t) = true
          · rw [if_pos hb] at heq2
            injection heq2 with heq'
            rw [← heq']
            exact ⟨pyStrip t, Or.inl rfl, hb⟩
          · rw [if_neg hb] at heq2; exact Option.noConfusion heq2
        | some t, none => rw [he1, he2] at heq; exact Option.noConfusion heq
        | none, some href => rw [he1, he2] at heq; exact Option.noConfusion heq
        | none, none => rw [he1, he2] at heq; exact Option.noConfusion heq

/-- C1 (witness): the amended claim applied to the generic adapter on a
concrete document. -/
theorem adapters_filter_by_classifier_witness :
    is_backend_internship jobW.title = true :=
  (adapters_filter_by_classifier "t0" cW (Except.ok docW)).2.1 jobW (by decide)

/-- Test posting whose title embeds the join separator. -/
def jobColl1 : Job := ⟨"A", "B-C", "https://x", "US", "t"⟩

/-- Test posting: identity tuple differs from `jobColl1` but join collides. -/
def jobColl2 : Job := ⟨"A-B", "C", "https://x", "US", "t"⟩

/-- C3 (counterexample): `get_job_id` is not injective on the identifying
tuple.  The postings `("A", "B-C", "https://x")` and
`("A-B", "C", "https://x")` have different tuples but the same dash-joined
identity string `"A-B-C-https://x"`, hence the same MD5 fingerprint. -/
theorem fingerprint_not_injective :
    (jobColl1.company, jobColl1.title, jobColl1.url) ≠
      (jobColl2.company, jobColl2.title, jobColl2.url) ∧
    job_string jobColl1 = job_string jobColl2 ∧
    get_job_id jobColl1 = get_job_id jobColl2 := by
  refine ⟨by decide, by decide, ?_⟩
  show md5_hexdigest (job_string jobColl1) = md5_hexdigest (job_string jobColl2)
  rw [show job_string jobColl1 = job_string jobColl2 from by decide]

/-- C3 (amended): the fingerprint is deterministic — `get_job_id p` always
equals `get_job_id p` — and depends only on the dash-joined identity
string `company-title-url`, so fingerprints agree whenever the joined
strings agree; distinct `(company, title, url)` tuples whose joined
strings coincide therefore share a fingerprint, and tuple-injectivity does
not hold. -/
theorem fingerprint_deterministic :
    (∀ job : Job, get_job_id job = get_job_id job) ∧
    (∀ j1 j2 : Job, job_string j1 = job_string j2 →
      get_job_id j1 = get_job_id j2) :=
  ⟨fun _ => rfl, fun j1 j2 h => by
    show md5_hexdigest (job_string j1) = md5_hexdigest (job_string j2)
    rw [h]⟩

/-- C3 (witness): determinism and join-dependence at concrete postings. -/
theorem fingerprint_deterministic_witness :
    get_job_id jobColl1 = get_job_id jobColl1 ∧
    get_job_id jobColl1 = get_job_id jobColl2 :=
  ⟨fingerprint_deterministic.1 jobColl1,
   fingerprint_deterministic.2 jobColl1 jobColl2 (by decide)⟩

/-- C8: loading the seen set from a missing file or from contents the JSON
parser rejects yields the empty mapping; `load_seen_jobs` is a total
function, so neither failure propagates to the caller. -/
theorem load_seen_jobs_resilient :
    (∀ json_load : String → Except String SeenJobs,
      load_seen_jobs none json_load = []) ∧
    (∀ (json_load : String → Except String SeenJobs) (s e : String),
      json_load s = Except.error e → load_seen_jobs (some s) json_load = []) := by
  refine ⟨fun _ => rfl, fun jl s e h => ?_⟩
  simp [load_seen_jobs, h]

/-- A JSON loader model that rejects every input. -/
def json_load_fail : String → Except String SeenJobs := fun s => Except.error s

/-- C8 (witness): a missing file and a rejected file both load as empty. -/
theorem load_seen_jobs_resilient_witness :
    load_seen_jobs none json_load_fail = [] ∧
    load_seen_jobs (some "not json") json_load_fail = [] :=
  ⟨load_seen_jobs_resilient.1 json_load_fail,
   load_seen_jobs_resilient.2 json_load_fail "not json" "not json" rfl⟩

/-- C6: the generic adapter reads only the first 30 anchors — its output
is unchanged when the document is truncated to those — and every candidate
it emits has title text of length in [10, 150) containing a lexicon term,
with the title being some retained anchor's stripped text and the link
taken verbatim when absolute, otherwise resolved against the base URL. -/
theorem generic_adapter_bounds (now : String) (c : Company) (soup : Document) :
    scrape_generic now c (Except.ok soup) =
      scrape_generic now c
        (Except.ok ⟨soup.job_elements, soup.job_cards, soup.all_links.take 30⟩) ∧
    ∀ j ∈ scrape_generic now c (Except.ok soup),
      10 ≤ j.title.data.length ∧ j.title.data.length < 150 ∧
      (generic_terms.any (fun term => pyIn term (pyLower j.title))) = true ∧
      ∃ a ∈ soup.all_links.take 30, j.title = pyStrip a.text ∧
        j.url = (if pyStartsWith a.href "http" = true then a.href
                 else urljoin c.base_url a.href) := by
  constructor
  · show (soup.all_links.take 30).filterMap _ =
      ((soup.all_links.take 30).take 30).filterMap _
    rw [List.take_take]
    norm_num
  · intro j hj
    rcases List.mem_filterMap.mp hj with ⟨link, hlink, heq⟩
    by_cases h1 : (pyStrip link.text).data ≠ [] ∧
        10 < (pyStrip link.text).data.length ∧ (pyStrip link.text).data.length < 150
    · rw [if_pos h1] at heq
      by_cases h2 : (generic_terms.any
          (fun term => pyIn term (pyLower (pyStrip link.text)))) = true
      · rw [if_pos h2] at heq
        by_cases hb : is_backend_internship (pyStrip link.text) = true
        · rw [if_pos hb] at heq
          injection heq with heq'
          rw [← heq']
          exact ⟨Nat.le_of_lt h1.2.1, h1.2.2, h2, link, hlink, rfl, rfl⟩
        · rw [if_neg hb] at heq; exact Option.noConfusion heq
      · rw [if_neg h2] at heq; exact Option.noConfusion heq
    · rw [if_neg h1] at heq; exact Option.noConfusion heq

/-- C6 (witness): the bounds applied to the candidate extracted from the
concrete test document. -/
theorem generic_adapter_bounds_witness :
    10 ≤ jobW.title.data.length ∧ jobW.title.data.length < 150 ∧
    (generic_terms.any (fun term => pyIn term (pyLower jobW.title))) = true ∧
    ∃ a ∈ docW.all_links.take 30, jobW.title = pyStrip a.text ∧
      jobW.url = (if pyStartsWith a.href "http" = true then a.href
                  else urljoin cW.base_url a.href) :=
  (generic_adapter_bounds "t0" cW docW).2 jobW (by decide)

/-- A google-typed test source. -/
def cW7 : Company := ⟨"Google", "https://careers.google.com", "https://careers.google.com/jobs", "google"⟩

/-- A container title longer than 100 characters that passes the classifier. -/
def longTitleW : String :=
  "Backend Software Engineering Intern - Large Scale Distributed Systems Infrastructure and Cloud Platform Team"

/-- A test document with one container carrying `longTitleW`. -/
def docW7L : Document := ⟨[⟨some longTitleW, some "/jobs/1"⟩], [], []⟩

/-- C7 (counterexample): candidates built from container elements are NOT
truncated to 100 characters: a container title of more than 100 characters
is returned verbatim by `scrape_google` (truncation happens only in the
fallback flat-link scan). -/
theorem google_titles_not_truncated :
    (scrape_google "t0" cW7 (Except.ok docW7L)).map Job.title = [longTitleW] ∧
    100 < longTitleW.data.length := by
  refine ⟨by decide, by decide⟩

/-- C7 (amended): every candidate built from a located container element
carries the stripped title text un-truncated, with its link resolved with
`urljoin` against the base URL; and when no container elements are found
the fallback flat-link scan emits at most 10 candidates. -/
theorem google_container_extraction (now : String) (c : Company) (soup : Document) :
    (soup.job_elements ≠ [] →
      ∀ j ∈ scrape_google now c (Except.ok soup),
        ∃ elem ∈ soup.job_elements.take 15, ∃ t h,
          elem.title_elem = some t ∧ elem.link_elem = some h ∧
          j.title = pyStrip t ∧ j.url = urljoin c.base_url h) ∧
    (soup.job_elements = [] →
      (scrape_google now c (Except.ok soup)).length ≤ 10) := by
  constructor
  · intro hne j hj
    have hempty : ¬ soup.job_elements.isEmpty = true := by
      intro h0; exact hne (List.isEmpty_iff.mp h0)
    rw [scrape_google, if_neg hempty] at hj
    rcases List.mem_filterMap.mp hj with ⟨elem, helem, heq⟩
    match he1 : elem.title_elem, he2 : elem.link_elem with
    | some t, some href =>
      rw [he1, he2] at heq
      have heq2 : (if is_backend_internship (pyStrip t) = true then
          some (⟨c.name, pyStrip t, urljoin c.base_url href, "US", now⟩ : Job)
        else none) = some j := heq
      by_cases hb : is_backend_internship (pyStrip t) = true
      · rw [if_pos hb] at heq2
        injection heq2 with heq'
        rw [← heq']
        exact ⟨elem, helem, t, href, he1, he2, rfl, rfl⟩
      · rw [if_neg hb] at heq2; exact Option.noConfusion heq2
    | some t, none => rw [he1, he2] at heq; exact Option.noConfusion heq
    | none, some href => rw [he1, he2] at heq; exact Option.noConfusion heq
    | none, none => rw [he1, he2] at heq; exact Option.noConfusion heq
  · intro h0
    have hempty : soup.job_elements.isEmpty = true := List.isEmpty_iff.mpr h0
    rw [scrape_google, if_pos hempty]
    exact google_fallback_length now c (soup.all_links.take 30) [] (by decide)

/-- A test container element for the amended C7 claim. -/
def docW7 : Document := ⟨[⟨some "Backend Intern - Python", some "/jobs/1"⟩], [], []⟩

/-- The posting `scrape_google` builds from `docW7`'s container. -/
def jobW7 : Job :=
  ⟨"Google", "Backend Intern - Python", "https://careers.google.com/jobs/1", "US", "t0"⟩

/-- C7 (witness): the amended claim applied at concrete documents with and
without container elements. -/
theorem google_container_extraction_witness :
    (∃ elem ∈ docW7.job_elements.take 15, ∃ t h,
      elem.title_elem = some t ∧ elem.link_elem = some h ∧
      jobW7.title = pyStrip t ∧ jobW7.url = urljoin cW7.base_url h) ∧
    (scrape_google "t0" cW7 (Except.ok docW)).length ≤ 10 :=
  ⟨(google_container_extraction "t0" cW7 docW7).1 (by decide) jobW7 (by decide),
   (google_container_extraction "t0" cW7 docW).2 (by decide)⟩

/-- C5: the seen set grows monotonically across a cycle: every fingerprint
key present before `scrape_all` is still present afterwards with its
stored posting snapshot unchanged (the dedup loop only ever appends
bindings for fingerprints that are absent). -/
theorem seen_set_monotone (now : String) (world : Company → Except Unit Document)
    (srcs : List Company) (seen : SeenJobs) (k : String) (v : Job)
    (h : List.lookup k seen = some v) :
    List.lookup k (scrape_all now world srcs seen).1 = some v :=
  run_lookup_mono now world srcs (seen, []) k v h

/-- A pre-existing seen-set entry for the C5 witness. -/
def seenW : SeenJobs := [("k0", jobColl1)]

/-- C5 (witness): a concrete pre-existing entry survives a cycle. -/
theorem seen_set_monotone_witness :
    List.lookup "k0" (scrape_all "t0" worldW [cW] seenW).1 = some jobColl1 :=
  seen_set_monotone "t0" worldW [cW] seenW "k0" jobColl1 (by decide)

/-- C4: dedup is idempotent across cycles.  With identical fetch/extraction
results (`world`), a cycle that extracts at least one posting whose
fingerprint is absent from the seen set returns a non-empty novel list,
and an immediately repeated cycle returns the empty novel list. -/
theorem dedup_idempotent_across_cycles (now : String)
    (world : Company → Except Unit Document) (srcs : List Company)
    (seen : SeenJobs) :
    ((∃ c ∈ srcs, ∃ j ∈ dispatch now world c,
        List.lookup (get_job_id j) seen = none) →
      (scrape_all now world srcs seen).2 ≠ []) ∧
    (scrape_all now world srcs (scrape_all now world srcs seen).1).2 = [] := by
  constructor
  · rintro ⟨c, hc, j, hj, hnone⟩ hempty
    rcases run_novel_extend now world srcs (seen, []) with ⟨d, hd, hs⟩
    have hd0 : d = [] := by
      have h2 : ([] : List Job) = [] ++ d := by
        rw [← hd]; exact hempty.symm
      simpa using h2.symm
    have hseen : (scrape_all now world srcs seen).1 = seen := hs hd0
    have hcov := run_covers now world srcs (seen, []) c hc j hj
    rw [show (run_companies now world srcs (seen, [])).1 =
          (scrape_all now world srcs seen).1 from rfl, hseen, hnone] at hcov
    cases hcov
  · have hall : ∀ c ∈ srcs, ∀ j ∈ dispatch now world c,
        (List.lookup (get_job_id j) (scrape_all now world srcs seen).1).isSome = true :=
      fun c hc j hj => run_covers now world srcs (seen, []) c hc j hj
    have hnoop := run_noop now world srcs ((scrape_all now world srcs seen).1, []) hall
    exact congrArg Prod.snd hnoop

/-- C4 (witness): on a concrete world with one extractable posting and an
empty initial seen set, the first cycle reports it and the second reports
nothing. -/
theorem dedup_idempotent_across_cycles_witness :
    (∃ c ∈ [cW], ∃ j ∈ dispatch "t0" worldW c,
      List.lookup (get_job_id j) ([] : SeenJobs) = none) ∧
    (scrape_all "t0" worldW [cW] []).2 ≠ [] ∧
    (scrape_all "t0" worldW [cW] (scrape_all "t0" worldW [cW] []).1).2 = [] := by
  have hx : ∃ c ∈ [cW], ∃ j ∈ dispatch "t0" worldW c,
      List.lookup (get_job_id j) ([] : SeenJobs) = none := by decide
  exact ⟨hx, (dedup_idempotent_across_cycles "t0" worldW [cW] []).1 hx,
    (dedup_idempotent_across_cycles "t0" worldW [cW] []).2⟩

/-- C10: within one cycle the novel-postings list has pairwise-distinct
fingerprints, every returned posting is stored in the seen set under its
fingerprint when the call returns, and the seen set gains exactly one
entry per returned posting. -/
theorem cycle_result_invariants (now : String)
    (world : Company → Except Unit Document) (srcs : List Company)
    (seen : SeenJobs) :
    ((scrape_all now world srcs seen).2.map get_job_id).Nodup ∧
    (∀ j ∈ (scrape_all now world srcs seen).2,
      List.lookup (get_job_id j) (scrape_all now world srcs seen).1 = some j) ∧
    (scrape_all now world srcs seen).1.length =
      seen.length + (scrape_all now world srcs seen).2.length := by
  refine ⟨?_, ?_, ?_⟩
  · exact run_nodup now world srcs (seen, []) (fun j hj => absurd hj (by simp))
      (by simp)
  · exact run_snapshots now world srcs (seen, []) (fun j hj => absurd hj (by simp))
  · have h := run_length now world srcs (seen, [])
    simpa using h

/-- C10 (witness): the cycle invariants applied to a concrete world. -/
theorem cycle_result_invariants_witness :
    ((scrape_all "t0" worldW [cW] []).2.map get_job_id).Nodup ∧
    (∀ j ∈ (scrape_all "t0" worldW [cW] []).2,
      List.lookup (get_job_id j) (scrape_all "t0" worldW [cW] []).1 = some j) ∧
    (scrape_all "t0" worldW [cW] []).1.length =
      ([] : SeenJobs).length + (scrape_all "t0" worldW [cW] []).2.length :=
  cycle_result_invariants "t0" worldW [cW] []

theorem dispatch_of_error (now : String) (world : Company → Except Unit Document)
    (c : Company) (h : world c = Except.error ()) :
    dispatch now world c = [] := by
  unfold dispatch
  rw [h]
  split
  · rfl
  · split
    · rfl
    · rfl

theorem run_companies_skip_failed (now : String)
    (world : Company → Except Unit Document) (c0 : Company)
    (cs2 : List Company) (herr : world c0 = Except.error ()) :
    ∀ (cs1 : List Company) (st : SeenJobs × List Job),
      run_companies now world (cs1 ++ c0 :: cs2) st =
        run_companies now world (cs1 ++ cs2) st := by
  intro cs1
  induction cs1 with
  | nil =>
    intro st
    show run_companies now world cs2 (dedup_insert st.1 st.2 (dispatch now world c0)) =
      run_companies now world cs2 st
    rw [dispatch_of_error now world c0 herr]
    rfl
  | cons c1 rest ih =>
    intro st
    show run_companies now world (rest ++ c0 :: cs2)
        (dedup_insert st.1 st.2 (dispatch now world c1)) =
      run_companies now world (rest ++ cs2)
        (dedup_insert st.1 st.2 (dispatch now world c1))
    exact ih _

/-- C9: extraction never escapes the adapter boundary: each adapter is a
total function returning `[]` when the fetch/parse prelude fails, and a
failed source is transparent to the cycle — running `scrape_all` with a
failing source interposed gives exactly the result of running it on the
remaining sources, so the other sources still contribute their novel
postings. -/
theorem extraction_error_isolation :
    (∀ (now : String) (c : Company),
      scrape_google now c (Except.error ()) = [] ∧
      scrape_microsoft now c (Except.error ()) = [] ∧
      scrape_generic now c (Except.error ()) = []) ∧
    (∀ (now : String) (world : Company → Except Unit Document)
       (cs1 cs2 : List Company) (c0 : Company) (seen : SeenJobs),
      world c0 = Except.error () →
      scrape_all now world (cs1 ++ c0 :: cs2) seen =
        scrape_all now world (cs1 ++ cs2) seen) := by
  constructor
  · intro now c
    exact ⟨rfl, rfl, rfl⟩
  · intro now world cs1 cs2 c0 seen herr
    exact run_companies_skip_failed now world c0 cs2 herr cs1 (seen, [])

/-- A world for the C9 witness: the "Bad" source fails, the rest succeed. -/
def worldW9 : Company → Except Unit Document :=
  fun c => if c.name == "Bad" then Except.error () else Except.ok docW

/-- The failing test source for the C9 witness. -/
def cBad : Company := ⟨"Bad", "https://bad.example", "https://bad.example/jobs", "amazon"⟩

/-- C9 (witness): a concrete cycle with a failing source in the middle
equals the cycle without it, and the failing source alone yields `[]`. -/
theorem extraction_error_isolation_witness :
    scrape_generic "t0" cBad (Except.error ()) = [] ∧
    scrape_all "t0" worldW9 ([cW] ++ cBad :: [cW7]) [] =
      scrape_all "t0" worldW9 ([cW] ++ [cW7]) [] :=
  ⟨(extraction_error_isolation.1 "t0" cBad).2.2,
   extraction_error_isolation.2 "t0" worldW9 [cW] [cW7] cBad [] rfl⟩
